import Mathlib

/-
Shallow embedding of the energy-explorer time-series core
(src/energy_explorer/objects.py, src/energy_explorer/es_explorer.py,
src/notebook/run_correlations.py, src/notebook/run_similarity.py).

Machine floats are modelled as rationals; timestamps as integer seconds
(numpy datetime64[s]).  Fallible numpy operations (np.pad with mode="edge"
on an empty array, np.convolve on an empty input, np.interp with an empty
sample-point array, scipy argrelextrema with order < 1, Python list
indexing out of range) are modelled with Option: `none` is a raised
exception.  The Gaussian weight function exp(-x/...) is transcendental, so
`smooth` is parametrised by the pointwise weight function `expf`; every
theorem about `smooth` below is proved for all `expf` (or exhibits a
behaviour independent of the weights, such as array lengths and trimming),
so it holds in particular for the true exponential.
-/

/-- Python `int()` applied to an exact rational: truncation toward zero. -/
def pyTrunc (q : ℚ) : ℤ := if q < 0 then ⌈q⌉ else ⌊q⌋

/-- Python list indexing `l[i]`: negative indices wrap once from the end;
a still-out-of-range index is an IndexError (`none`). -/
def pyGet (l : List ℚ) (i : ℤ) : Option ℚ :=
  let j : ℤ := if i < 0 then i + l.length else i
  if h : 0 ≤ j ∧ j < l.length then some (l.get ⟨j.toNat, by omega⟩) else none

/-- Python slice `l[s:e]` with nonnegative clamped bounds. -/
def pySlice (l : List ℚ) (s e : ℕ) : List ℚ := (l.take e).drop s

/-- Python slice `l[r:-r]` as written in `CapacitySeries.smooth`:
for `r = 0` this is `l[0:0] = []` (the `-0 == 0` pitfall), otherwise it
drops `r` elements from each end. -/
def pyTrimSlice {α : Type} (l : List α) (r : ℕ) : List α :=
  if r = 0 then [] else (l.drop r).take (l.length - 2 * r)

/-- Array access with zero default for convolution sums (out-of-range
terms contribute nothing to the sum). -/
def aget (l : List ℚ) (i : ℤ) : ℚ :=
  if 0 ≤ i then l.getD i.toNat 0 else 0

/-- numpy `diff(a)`: first discrete forward difference. -/
def diff1 (l : List ℚ) : List ℚ := l.tail.zipWith (· - ·) l

/-- numpy `diff(a, n=2)`: second discrete forward difference. -/
def diff2 (l : List ℚ) : List ℚ := diff1 (diff1 l)

/-- numpy `pad(a, (1, 1), mode="edge")`: replicate the first and last
element once.  On an empty array numpy raises (can't extend an empty axis
with mode "edge"), modelled as `none`. -/
def padEdge (l : List ℚ) : Option (List ℚ) :=
  match l with
  | [] => none
  | x :: xs => some (x :: (x :: xs) ++ [(x :: xs).getLast (by simp)])

/-- Data model: a time series of cumulative capacity
(`CapacitySeries` in src/energy_explorer/objects.py).  `time` holds
timestamps in whole seconds (datetime64[s]), `capacity` the values. -/
structure CapacitySeries where
  time : List ℤ
  capacity : List ℚ
deriving DecidableEq

/-- Embedding of `CapacitySeries.acceleration`: second derivative of capacity via
`diff(·, n=2)` then `pad(·, (1,1), mode="edge")`.  For a capacity of
length at most 2 the second difference is empty and the edge pad raises,
modelled as `none`. -/
def CapacitySeries.acceleration (s : CapacitySeries) : Option (List ℚ) :=
  padEdge (diff2 s.capacity)

/-- One point of numpy `interp(x, xp, fp)` for increasing `xp`:
clamp to the boundary values outside `[xp[0], xp[-1]]`, linear
interpolation inside. -/
def interpOne : List ℚ → List ℚ → ℚ → ℚ
  | [], _, _ => 0
  | _ :: _, [], _ => 0
  | [_], f0 :: _, _ => f0
  | x0 :: x1 :: xs, f0 :: f1 :: fs, x =>
    if x ≤ x0 then f0
    else if x ≤ x1 then f0 + (f1 - f0) * (x - x0) / (x1 - x0)
    else interpOne (x1 :: xs) (f1 :: fs) x
  | _ :: _ :: _, [_], _ => 0

/-- numpy `interp(x, xp, fp)`: raises when `xp` is empty or the sample
arrays have different lengths, modelled as `none`. -/
def interpolate (x xp fp : List ℚ) : Option (List ℚ) :=
  if xp = [] ∨ xp.length ≠ fp.length then none
  else some (x.map (interpOne xp fp))

/-- The uniform grid `[start + i*delta for i in range(n)]` built in
`CapacitySeries.smooth`. -/
def gridTimes (start delta : ℤ) (n : ℤ) : List ℤ :=
  (List.range n.toNat).map (fun (i : ℕ) => start + (i : ℤ) * delta)

/-- The grid size `size_ = int((end_ - start_) / timedelta64(delta, "s"))` from
`CapacitySeries.smooth`. -/
def gridSize (start endT delta : ℤ) : ℤ :=
  pyTrunc (((endT - start : ℤ) : ℚ) / ((delta : ℤ) : ℚ))

/-- The radius `kernel_radius = int(3 * sigma.total_seconds() / delta.total_seconds())`
from `CapacitySeries.smooth` (truncating division). -/
def kernelRadius (delta sigma : ℤ) : ℕ :=
  (pyTrunc ((3 * (sigma : ℚ)) / ((delta : ℤ) : ℚ))).toNat

/-- The normalized Gaussian kernel of `CapacitySeries.smooth`:
`exp(-0.5 * (kernel_range / sigma)^2)` over
`kernel_range = arange(-r*delta, (r+1)*delta, delta)`, divided by its sum.
The transcendental `exp` is the parameter `expf`. -/
def mkKernel (expf : ℚ → ℚ) (r : ℕ) (delta sigma : ℤ) : List ℚ :=
  let raw := (List.range (2 * r + 1)).map
    (fun (i : ℕ) => expf (-(1/2) * ((((i : ℤ) - (r : ℤ)) * delta : ℤ) / (sigma : ℚ))^2))
  let s := raw.sum
  raw.map (· / s)

/-- Full discrete convolution (numpy `convolve` mode "full"):
`full[k] = sum_j a[j] * v[k-j]`. -/
def convolveFull (a v : List ℚ) : List ℚ :=
  (List.range (a.length + v.length - 1)).map
    (fun (k : ℕ) => ((List.range v.length).map
      (fun (j : ℕ) => aget a ((k : ℤ) - (j : ℤ)) * v.getD j 0)).sum)

/-- numpy `convolve(a, v, mode="same")`: raises on an empty input
(`none`); otherwise the centered `max(M, N)` middle slice of the full
convolution, starting at offset `(min(M, N) - 1) / 2`. -/
def convolveSame (a v : List ℚ) : Option (List ℚ) :=
  if a = [] ∨ v = [] then none
  else some (((convolveFull a v).drop ((min a.length v.length - 1) / 2)).take
    (max a.length v.length))

/-- The clamp `trimmed_capacity[trimmed_capacity < 0] = 0` from
`CapacitySeries.smooth`. -/
def clampNeg (l : List ℚ) : List ℚ := l.map (fun x => if x < 0 then 0 else x)

/-- Embedding of `CapacitySeries.smooth(start, end, delta, sigma)` from
src/energy_explorer/objects.py, returning the updated series.
`delta`/`sigma` are whole seconds; `expf` abstracts the Gaussian `exp`.
`none` models a raised exception (np.interp on an empty original series,
or np.convolve on an empty interpolated grid). -/
def CapacitySeries.smooth (expf : ℚ → ℚ) (s : CapacitySeries)
    (start endT delta sigma : ℤ) : Option CapacitySeries :=
  let size_ := gridSize start endT delta
  let newTimes := gridTimes start delta size_
  match interpolate (newTimes.map (fun (t : ℤ) => (t : ℚ)))
      (s.time.map (fun (t : ℤ) => (t : ℚ))) s.capacity with
  | none => none
  | some interpolatedCapacity =>
    let r := kernelRadius delta sigma
    let kernel := mkKernel expf r delta sigma
    match convolveSame interpolatedCapacity kernel with
    | none => none
    | some smoothedCapacity =>
      some ⟨pyTrimSlice newTimes r, clampNeg (pyTrimSlice smoothedCapacity r)⟩

/-- Insert into an ascending list, keeping it ascending. -/
def insertSorted (x : ℚ) : List ℚ → List ℚ
  | [] => [x]
  | y :: ys => if x ≤ y then x :: y :: ys else y :: insertSorted x ys

/-- Ascending sort of a rational list (insertion sort). -/
def sortQ (l : List ℚ) : List ℚ := l.foldr insertSorted []

/-- numpy `percentile(a, q)` with the default linear interpolation:
sort ascending, take position `q/100 * (len - 1)` and interpolate between
the two neighbouring order statistics. -/
def percentileQ (l : List ℚ) (q : ℚ) : ℚ :=
  let s := sortQ l
  if s.length = 0 then 0
  else
    let pos : ℚ := q / 100 * ((s.length : ℚ) - 1)
    let i : ℕ := ⌊pos⌋.toNat
    let frac : ℚ := pos - (⌊pos⌋ : ℚ)
    let lo := s.getD i 0
    let hi := s.getD (min (i + 1) (s.length - 1)) 0
    lo + frac * (hi - lo)

/-- Index clamping used by numpy `take(..., mode="clip")` inside scipy's
`argrelextrema`. -/
def clipIdx (n : ℕ) (i : ℤ) : ℕ :=
  if i < 0 then 0 else if i ≥ (n : ℤ) then n - 1 else i.toNat

/-- scipy `_boolrelextrema` at one index: the value compares true against
the clipped neighbours at every offset `1..order` on both sides. -/
def isRelExtr (cmp : ℚ → ℚ → Bool) (a : List ℚ) (order : ℕ) (i : ℕ) : Bool :=
  (List.range order).all (fun s =>
    cmp (a.getD i 0) (a.getD (clipIdx a.length ((i : ℤ) + ((s : ℤ) + 1))) 0) &&
    cmp (a.getD i 0) (a.getD (clipIdx a.length ((i : ℤ) - ((s : ℤ) + 1))) 0))

/-- scipy `argrelextrema(a, comparator, order)[0]` with the default
`mode="clip"`: the ascending list of indices passing `isRelExtr`. -/
def relExtrema (cmp : ℚ → ℚ → Bool) (a : List ℚ) (order : ℕ) : List ℕ :=
  (List.range a.length).filter (isRelExtr cmp a order)

/-- The width `t_width = 3 * int(sigma.total_seconds() / t_interval)` from
`find_acceleration_peaks`, with `t_interval = time[1] - time[0]`
(truncating `int`, not `round`). -/
def peakWidth (tInterval sigma : ℤ) : ℕ :=
  3 * (pyTrunc ((sigma : ℚ) / ((tInterval : ℤ) : ℚ))).toNat

/-- Data model: detected acceleration peaks (`AccelerationPeaks` in
src/energy_explorer/objects.py), as ordered `(time, value)` pairs. -/
structure AccelerationPeaks where
  minima : List (ℤ × ℚ)
  maxima : List (ℤ × ℚ)
deriving DecidableEq

/-- Embedding of `find_acceleration_peaks(capacity_series, sigma)` from
src/energy_explorer/es_explorer.py.  `none` models a raised exception:
fewer than two timestamps (IndexError on `time[1]`), a too-short capacity
(np.pad inside `acceleration`), or `t_width < 1` (scipy argrelextrema
requires `order >= 1`). -/
def find_acceleration_peaks (s : CapacitySeries) (sigma : ℤ) :
    Option AccelerationPeaks :=
  match s.time with
  | t0 :: t1 :: _ =>
    let tWidth := peakWidth (t1 - t0) sigma
    match s.acceleration with
    | none => none
    | some accel =>
      if tWidth < 1 then none
      else
        let getPeaks := fun (idxs : List ℕ) (q : ℚ) =>
          idxs.map (fun n =>
            (s.time.getD n 0,
             percentileQ (pySlice accel (n - tWidth) (min accel.length (n + tWidth))) q))
        let maxIdx := relExtrema (fun x y => decide (x > y)) accel tWidth
        let minIdx := relExtrema (fun x y => decide (x < y)) accel tWidth
        some ⟨getPeaks minIdx 5, getPeaks maxIdx 95⟩
  | _ => none

/-- numpy `argmax`: index of the first occurrence of the maximum. -/
def argmaxIdx (l : List ℚ) : ℕ :=
  (l.enum.foldl (fun (b : ℕ × ℚ) (p : ℕ × ℚ) => if p.2 > b.2 then p else b)
    (0, l.getD 0 0)).1

/-- The width `t_width = int((3 * t_sigma).total_seconds() / t_delta.total_seconds())`
from `compute_pair_correlation`. -/
def corrWidth (tSigma tDelta : ℤ) : ℕ :=
  (pyTrunc ((3 * (tSigma : ℚ)) / ((tDelta : ℤ) : ℚ))).toNat

/-- The list `range(-max_shift, max_shift + 1)`: the ascending list of candidate
shifts tried by `compute_pair_correlation`. -/
def shiftList (maxShift : ℕ) : List ℤ :=
  (List.range (2 * maxShift + 1)).map (fun (i : ℕ) => (i : ℤ) - (maxShift : ℤ))

/-- One iteration of the shift loop in `compute_pair_correlation`:
skip an out-of-bounds centre, skip a length mismatch, otherwise update the
running `(max_corr, best_shift)` on a strictly greater dot product.
The score is an `Option ℚ` whose `none` is the initial float `-inf`
(every finite score compares strictly greater than `-inf`, so the first
computed score always replaces it). -/
def corrStep (kernel accelN : List ℚ) (mPeak tWidth : ℕ)
    (acc : Option ℚ × ℤ) (shift : ℤ) : Option ℚ × ℤ :=
  let c : ℤ := (mPeak : ℤ) + shift
  if c - (tWidth : ℤ) < 0 ∨ c + (tWidth : ℤ) ≥ (accelN.length : ℤ) then acc
  else
    let seg := pySlice accelN (c - (tWidth : ℤ)).toNat (c + (tWidth : ℤ)).toNat
    if seg.length = kernel.length then
      let corr : ℚ := (kernel.zipWith (· * ·) seg).sum
      match acc.1 with
      | none => (some corr, shift)
      | some m => if m < corr then (some corr, shift) else acc
    else acc

/-- Embedding of `compute_pair_correlation(series_m, series_n, max_shift, t_sigma,
t_delta)` from src/notebook/run_correlations.py.  The kernel is the slice
of the reference acceleration around its first global-maximum index
(`nan_to_num` is the identity on exact rationals); the result is the best
`(max_corr, shift)` over `range(-max_shift, max_shift+1)`, starting from
`(-inf, 0)` — the score's `none` is `-inf`.  The outer `none` models the
exception raised by `acceleration` on a too-short series. -/
def compute_pair_correlation (sm sn : CapacitySeries) (maxShift : ℕ)
    (tSigma tDelta : ℤ) : Option (Option ℚ × ℤ) :=
  match sm.acceleration, sn.acceleration with
  | some accelM, some accelN =>
    let mPeak := argmaxIdx accelM
    let tWidth := corrWidth tSigma tDelta
    let kernel := pySlice accelM (mPeak - tWidth) (min accelM.length (mPeak + tWidth))
    some ((shiftList maxShift).foldl (corrStep kernel accelN mPeak tWidth) (none, 0))
  | _, _ => none

/-- Dot product of two rational vectors (numpy `dot` after truncation to a
common length). -/
def dotQ (a b : List ℚ) : ℚ := (a.zipWith (· * ·) b).sum

/-- Squared euclidean norm; `norm(a) = Real.sqrt (normSqQ a)`. -/
def normSqQ (a : List ℚ) : ℚ := dotQ a a

/-- Embedding of `compute_cosine_similarity(series_m, series_n)` from
src/notebook/run_similarity.py: truncate both accelerations to the common
shorter length, then `dot / (norm_m * norm_n + 1e-9)`.  The norms need a
real square root, so the value lives in ℝ.  `none` models the exception
raised by `acceleration` on a too-short series. -/
noncomputable def compute_cosine_similarity (sm sn : CapacitySeries) :
    Option ℝ :=
  match sm.acceleration, sn.acceleration with
  | some accelM, some accelN =>
    let minLen := min accelM.length accelN.length
    let a := accelM.take minLen
    let b := accelN.take minLen
    some ((dotQ a b : ℝ) /
      (Real.sqrt (normSqQ a) * Real.sqrt (normSqQ b) + 1e-9))
  | _, _ => none

/-- numpy `clip(x, lo, hi)`. -/
def clipQ (x lo hi : ℚ) : ℚ := if x < lo then lo else if x > hi then hi else x

/-- Embedding of `predict_capacity_series(series_m, series_n, similarity_coeff)` from
src/notebook/run_similarity.py: deep-copy the target, zero its capacity
from the midpoint on, clip the coefficient to `[-1, 1]`, then iterate
`t` over `range(midpoint - 1, len - 1)` adding the donor's scaled local
derivative and clipping each stored value to `[-1e9, 1e9]`.  Exact
rationals are never NaN/inf, so the non-finite branch never fires; `none`
models an IndexError reading the donor (possible when the donor is
shorter than the target) via Python-faithful `pyGet`.  `predictStep` is
one iteration of the prediction loop body. -/
def predictStep (mcap : List ℚ) (c : ℚ) (acc : Option (List ℚ)) (t : ℤ) :
    Option (List ℚ) :=
  acc.bind (fun cap =>
    match pyGet mcap (t + 1), pyGet mcap t, pyGet cap t with
    | some m1, some m0, some pt =>
      let dcp := 2 * (m1 - m0) * c^2
      some (cap.set (t + 1).toNat (clipQ (pt + dcp) (-(10^9)) (10^9)))
    | _, _, _ => none)

def predict_capacity_series (sm sn : CapacitySeries) (coeff : ℚ) :
    Option CapacitySeries :=
  let cap0 := sn.capacity
  let mid : ℕ := cap0.length / 2
  let capZ := cap0.take mid ++ List.replicate (cap0.length - mid) 0
  let c := clipQ coeff (-1) 1
  let count : ℕ := cap0.length - mid
  let ts : List ℤ := (List.range count).map (fun (i : ℕ) => (mid : ℤ) - 1 + (i : ℤ))
  let res : Option (List ℚ) := ts.foldl (predictStep sm.capacity c) (some capZ)
  res.map (fun cap => ⟨sn.time, cap⟩)



lemma interpolate_some (x xp fp : List ℚ) (h1 : xp ≠ []) (h2 : xp.length = fp.length) :
    interpolate x xp fp = some (x.map (interpOne xp fp)) := by
  simp [interpolate, h1, h2]

lemma gridTimes_length (start delta n : ℤ) :
    (gridTimes start delta n).length = n.toNat := by
  simp [gridTimes]

lemma mkKernel_length (expf : ℚ → ℚ) (r : ℕ) (delta sigma : ℤ) :
    (mkKernel expf r delta sigma).length = 2 * r + 1 := by
  simp [mkKernel]

lemma convolveFull_length (a v : List ℚ) :
    (convolveFull a v).length = a.length + v.length - 1 := by
  simp [convolveFull]

lemma clampNeg_length (l : List ℚ) : (clampNeg l).length = l.length := by
  simp [clampNeg]

lemma pyTrimSlice_length {α : Type} (l : List α) (r : ℕ) (hr : r ≠ 0) :
    (pyTrimSlice l r).length = min (l.length - 2 * r) (l.length - r) := by
  simp [pyTrimSlice, hr]

lemma convolveSame_some (a v : List ℚ) (ha : a ≠ []) (hv : v ≠ []) :
    convolveSame a v = some
      (((convolveFull a v).drop ((min a.length v.length - 1) / 2)).take
        (max a.length v.length)) := by
  simp [convolveSame, ha, hv]

lemma smooth_eq_of (expf : ℚ → ℚ) (s : CapacitySeries) (start endT delta sigma : ℤ)
    (ht : s.time ≠ []) (hlen : s.time.length = s.capacity.length) :
    CapacitySeries.smooth expf s start endT delta sigma =
      (convolveSame
        (((gridTimes start delta (gridSize start endT delta)).map (fun (t : ℤ) => (t : ℚ))).map
          (interpOne (s.time.map (fun (t : ℤ) => (t : ℚ))) s.capacity))
        (mkKernel expf (kernelRadius delta sigma) delta sigma)).map
        (fun sc =>
          ⟨pyTrimSlice (gridTimes start delta (gridSize start endT delta)) (kernelRadius delta sigma),
           clampNeg (pyTrimSlice sc (kernelRadius delta sigma))⟩) := by
  simp only [CapacitySeries.smooth]
  rw [interpolate_some _ _ _ (by simpa using ht) (by simpa using hlen)]
  cases h : convolveSame
      (((gridTimes start delta (gridSize start endT delta)).map (fun (t : ℤ) => (t : ℚ))).map
        (interpOne (s.time.map (fun (t : ℤ) => (t : ℚ))) s.capacity))
      (mkKernel expf (kernelRadius delta sigma) delta sigma) <;>
    (simp only [List.map_map] at h ⊢; rw [h]; rfl)

lemma smooth_none_of_empty_grid (expf : ℚ → ℚ) (s : CapacitySeries)
    (start endT delta sigma : ℤ) (ht : s.time ≠ [])
    (hlen : s.time.length = s.capacity.length)
    (hN : (gridSize start endT delta).toNat = 0) :
    CapacitySeries.smooth expf s start endT delta sigma = none := by
  rw [smooth_eq_of expf s start endT delta sigma ht hlen]
  have hg : gridTimes start delta (gridSize start endT delta) = [] := by
    have := gridTimes_length start delta (gridSize start endT delta)
    rw [hN] at this
    exact List.length_eq_zero.mp this
  simp [hg, convolveSame]

lemma smooth_degenerate (expf : ℚ → ℚ) (s : CapacitySeries)
    (start endT delta sigma : ℤ) (ht : s.time ≠ [])
    (hlen : s.time.length = s.capacity.length)
    (hr : 1 ≤ kernelRadius delta sigma)
    (hM1 : 1 ≤ (gridSize start endT delta).toNat)
    (hM2 : (gridSize start endT delta).toNat ≤ 2 * kernelRadius delta sigma) :
    ∃ p, CapacitySeries.smooth expf s start endT delta sigma = some p ∧
      p.time = [] ∧ p.capacity.length = 1 := by
  rw [smooth_eq_of expf s start endT delta sigma ht hlen]
  set r := kernelRadius delta sigma with hrdef
  set N := gridSize start endT delta with hNdef
  set A := ((gridTimes start delta N).map (fun (t : ℤ) => (t : ℚ))).map
    (interpOne (s.time.map (fun (t : ℤ) => (t : ℚ))) s.capacity) with hA
  have hAlen : A.length = N.toNat := by
    simp [hA, gridTimes_length]
  have hAne : A ≠ [] := by
    intro hnil
    rw [hnil] at hAlen
    simp at hAlen
    omega
  have hKne : mkKernel expf r delta sigma ≠ [] := by
    intro hnil
    have := mkKernel_length expf r delta sigma
    rw [hnil] at this
    simp at this
  rw [convolveSame_some _ _ hAne hKne]
  refine ⟨_, rfl, ?_, ?_⟩
  · have h0 : (pyTrimSlice (gridTimes start delta N) r).length = 0 := by
      rw [pyTrimSlice_length _ _ (by omega)]
      rw [gridTimes_length]
      omega
    exact List.length_eq_zero.mp h0
  · rw [clampNeg_length, pyTrimSlice_length _ _ (by omega)]
    rw [List.length_take, List.length_drop, convolveFull_length, hAlen,
      mkKernel_length]
    omega

lemma smooth_good (expf : ℚ → ℚ) (s : CapacitySeries)
    (start endT delta sigma : ℤ) (ht : s.time ≠ [])
    (hlen : s.time.length = s.capacity.length)
    (hr : 1 ≤ kernelRadius delta sigma)
    (hM : 2 * kernelRadius delta sigma < (gridSize start endT delta).toNat) :
    ∃ p, CapacitySeries.smooth expf s start endT delta sigma = some p ∧
      p.time.length =
        (gridSize start endT delta).toNat - 2 * kernelRadius delta sigma ∧
      p.capacity.length =
        (gridSize start endT delta).toNat - 2 * kernelRadius delta sigma ∧
      (∀ i, i < p.time.length →
        p.time.getD i 0 = start + ((kernelRadius delta sigma : ℤ) + (i : ℤ)) * delta) := by
  rw [smooth_eq_of expf s start endT delta sigma ht hlen]
  set r := kernelRadius delta sigma with hrdef
  set N := gridSize start endT delta with hNdef
  set A := ((gridTimes start delta N).map (fun (t : ℤ) => (t : ℚ))).map
    (interpOne (s.time.map (fun (t : ℤ) => (t : ℚ))) s.capacity) with hA
  have hAlen : A.length = N.toNat := by
    simp [hA, gridTimes_length]
  have hAne : A ≠ [] := by
    intro hnil
    rw [hnil] at hAlen
    simp at hAlen
    omega
  have hKne : mkKernel expf r delta sigma ≠ [] := by
    intro hnil
    have := mkKernel_length expf r delta sigma
    rw [hnil] at this
    simp at this
  rw [convolveSame_some _ _ hAne hKne]
  have htlen : (pyTrimSlice (gridTimes start delta N) r).length = N.toNat - 2 * r := by
    rw [pyTrimSlice_length _ _ (by omega), gridTimes_length]
    omega
  refine ⟨_, rfl, htlen, ?_, ?_⟩
  · rw [clampNeg_length, pyTrimSlice_length _ _ (by omega)]
    rw [List.length_take, List.length_drop, convolveFull_length, hAlen,
      mkKernel_length]
    omega
  · intro i hi
    rw [htlen] at hi
    have hglen : (gridTimes start delta N).length = N.toNat := gridTimes_length _ _ _
    have hlt : i < (pyTrimSlice (gridTimes start delta N) r).length := by
      rw [htlen]; exact hi
    rw [List.getD_eq_getElem _ _ hlt]
    simp only [pyTrimSlice, if_neg (by omega : ¬ r = 0)] at hlt ⊢
    rw [List.getElem_take, List.getElem_drop]
    simp [gridTimes, List.getElem_map, List.getElem_range]

lemma gridSize_0_20_10 : gridSize 0 20 10 = 2 := by
  norm_num [gridSize, pyTrunc]

lemma gridSize_0_30_10 : gridSize 0 30 10 = 3 := by
  norm_num [gridSize, pyTrunc]

lemma gridSize_0_0_10 : gridSize 0 0 10 = 0 := by
  norm_num [gridSize, pyTrunc]

lemma kernelRadius_10_10 : kernelRadius 10 10 = 3 := by
  norm_num [kernelRadius, pyTrunc]
  rfl

/-- Claim C1, counterexample.  With series `time=[0s,100s]`,
`capacity=[0,5]` and `start=0, end=20, delta=10s, sigma=10s` the grid has
`N = 2` samples and the kernel radius is `r = 3`, so `N ≤ 2r` and the claim
asserts both arrays come out empty.  The code instead leaves `time` empty
but `capacity` of length 1: numpy's same-mode convolution of a length-2
input with a length-7 kernel returns length `max(2,7) = 7`, and the `[3:-3]`
trim keeps one sample.  Array lengths are independent of the kernel weights
(see `smooth_degenerate`, proved for every weight function), so the constant
weight stands in for the Gaussian. -/
theorem C1_counterexample :
    ((CapacitySeries.smooth (fun _ => 1) ⟨[0, 100], [0, 5]⟩ 0 20 10 10).map
      (fun p => (p.time, p.capacity.length))) = some ([], 1) ∧
    gridSize 0 20 10 ≤ 2 * (kernelRadius 10 10 : ℤ) := by
  constructor
  · obtain ⟨p, hp, ht, hc⟩ := smooth_degenerate (fun _ => 1) ⟨[0, 100], [0, 5]⟩
      0 20 10 10 (by simp) (by simp)
      (by rw [kernelRadius_10_10]; norm_num) (by rw [gridSize_0_20_10]; norm_num)
      (by rw [gridSize_0_20_10, kernelRadius_10_10]; norm_num)
    rw [hp]
    simp [ht, hc]
  · rw [gridSize_0_20_10, kernelRadius_10_10]
    norm_num

/-- Claim C2, code bug, at the failing input: series `time=[0s,100s]`,
`capacity=[0,5]` smoothed with `start=0, end=30, delta=10s, sigma=10s`
(grid `N = 3`, radius `r = 3`).  The method's docstring promises that time
and capacity remain aligned, but the result has `len(time) = 0` and
`len(capacity) = 1`, so the data-model invariant
`len(time) == len(capacity)` is broken by `smooth`.  Proved for every
kernel weight function, hence for the true Gaussian. -/
theorem C2_code_bug :
    ∀ expf : ℚ → ℚ,
      ((CapacitySeries.smooth expf ⟨[0, 100], [0, 5]⟩ 0 30 10 10).map
        (fun p => (p.time.length, p.capacity.length))) = some (0, 1) := by
  intro expf
  obtain ⟨p, hp, ht, hc⟩ := smooth_degenerate expf ⟨[0, 100], [0, 5]⟩
    0 30 10 10 (by simp) (by simp)
    (by rw [kernelRadius_10_10]; norm_num) (by rw [gridSize_0_30_10]; norm_num)
    (by rw [gridSize_0_30_10, kernelRadius_10_10]; norm_num)
  rw [hp]
  simp [ht, hc]

/-- Claim C3, code bug, at the failing inputs: series of capacity length 2
and 1.  `diff(capacity, n=2)` is empty there, and `np.pad(..., (1, 1),
mode="edge")` on an empty array raises a ValueError (modelled `none`)
instead of returning an array of the same length as `capacity`, as the
accessor's own docstring and the claim state (the claim covers lengths
0, 1 and 2 explicitly). -/
theorem C3_code_bug :
    CapacitySeries.acceleration ⟨[0, 1], [0, 0]⟩ = none ∧
    CapacitySeries.acceleration ⟨[0], [0]⟩ = none := by
  constructor <;> norm_num [CapacitySeries.acceleration, padEdge, diff2, diff1]

/-- Claim C4, code bug, at the failing input `start = end` (grid size
`N = 0`): the interpolated array is empty and `np.convolve` raises
"a cannot be empty" (modelled `none`) instead of terminating with an empty
series, for every kernel weight function. -/
theorem C4_code_bug :
    ∀ expf : ℚ → ℚ,
      CapacitySeries.smooth expf ⟨[0, 100], [0, 5]⟩ 0 0 10 10 = none := by
  intro expf
  exact smooth_none_of_empty_grid expf _ 0 0 10 10 (by simp) (by simp)
    (by rw [gridSize_0_0_10]; rfl)

/-- Claim C1, amended: for every series with aligned nonempty arrays and
every smoothing configuration with kernel radius `r ≥ 1` and
`N = floor((end-start)/delta) > 2r`, after `smooth` the series' time array
is strictly evenly spaced with step `delta`
(`time[i] = start + (r+i)*delta`, consecutive difference exactly `delta`)
and `len(time) = len(capacity) = N - 2r`.  The original claim also asserted
the `N ≤ 2r` case leaves both arrays empty and (implicitly, via the length
formula) covered `r = 0`; both of those fail on the code
(`C1_counterexample`, `smooth_degenerate`), so they are dropped here. -/
theorem C1_amended (expf : ℚ → ℚ) (s : CapacitySeries) (start endT delta sigma : ℤ)
    (ht : s.time ≠ []) (hlen : s.time.length = s.capacity.length)
    (hr : 1 ≤ kernelRadius delta sigma)
    (hM : 2 * kernelRadius delta sigma < (gridSize start endT delta).toNat) :
    ∃ p, CapacitySeries.smooth expf s start endT delta sigma = some p ∧
      p.time.length =
        (gridSize start endT delta).toNat - 2 * kernelRadius delta sigma ∧
      p.capacity.length = p.time.length ∧
      (∀ i, i < p.time.length →
        p.time.getD i 0 = start + ((kernelRadius delta sigma : ℤ) + (i : ℤ)) * delta) ∧
      (∀ i, i + 1 < p.time.length →
        p.time.getD (i + 1) 0 - p.time.getD i 0 = delta) := by
  obtain ⟨p, hp, h1, h2, h3⟩ := smooth_good expf s start endT delta sigma ht hlen hr hM
  refine ⟨p, hp, h1, by rw [h1, h2], h3, ?_⟩
  intro i hi
  rw [h3 _ hi, h3 _ (by omega)]
  push_cast
  ring

lemma kernelRadius_10_5 : kernelRadius 10 5 = 1 := by
  norm_num [kernelRadius, pyTrunc]

lemma gridSize_0_80_10 : gridSize 0 80 10 = 8 := by
  norm_num [gridSize, pyTrunc]

/-- Claim C1, witness: the amended theorem applied to the concrete series
`time=[0s,1000s]`, `capacity=[0,5]` with `start=0, end=80, delta=10s,
sigma=5s`, where `r = 1` and `N = 8`. -/
theorem C1_witness :
    (⟨[0, 1000], [0, 5]⟩ : CapacitySeries).time ≠ [] ∧
    (⟨[0, 1000], [0, 5]⟩ : CapacitySeries).time.length =
      (⟨[0, 1000], [0, 5]⟩ : CapacitySeries).capacity.length ∧
    1 ≤ kernelRadius 10 5 ∧
    2 * kernelRadius 10 5 < (gridSize 0 80 10).toNat ∧
    (∃ p, CapacitySeries.smooth (fun _ => 1) ⟨[0, 1000], [0, 5]⟩ 0 80 10 5 = some p ∧
      p.time.length = (gridSize 0 80 10).toNat - 2 * kernelRadius 10 5 ∧
      p.capacity.length = p.time.length ∧
      (∀ i, i < p.time.length →
        p.time.getD i 0 = 0 + ((kernelRadius 10 5 : ℤ) + (i : ℤ)) * 10) ∧
      (∀ i, i + 1 < p.time.length →
        p.time.getD (i + 1) 0 - p.time.getD i 0 = 10)) :=
  ⟨by simp, by simp, by rw [kernelRadius_10_5], by rw [kernelRadius_10_5, gridSize_0_80_10]; norm_num,
   C1_amended (fun _ => 1) ⟨[0, 1000], [0, 5]⟩ 0 80 10 5 (by simp) (by simp)
     (by rw [kernelRadius_10_5]) (by rw [kernelRadius_10_5, gridSize_0_80_10]; norm_num)⟩

lemma corrStep_oob (kernel accelN : List ℚ) (mPeak tWidth : ℕ)
    (acc : Option ℚ × ℤ) (shift : ℤ)
    (h : (mPeak : ℤ) + shift - (tWidth : ℤ) < 0 ∨
      (mPeak : ℤ) + shift + (tWidth : ℤ) ≥ (accelN.length : ℤ)) :
    corrStep kernel accelN mPeak tWidth acc shift = acc := by
  simp only [corrStep]
  rw [if_pos h]

lemma foldl_fixed {α β : Type} (f : β → α → β) (l : List α) (b : β)
    (h : ∀ acc x, x ∈ l → f acc x = acc) : l.foldl f b = b := by
  induction l generalizing b with
  | nil => rfl
  | cons y ys ih =>
    rw [List.foldl_cons, h b y (by simp)]
    exact ih b (fun acc x hx => h acc x (by simp [hx]))

/-- Claim C5: in `compute_pair_correlation`, every shift whose candidate
window falls out of bounds (`center - w < 0` or
`center + w >= len(candidate.acceleration)`) is skipped without raising
(the embedded step function is total and returns the accumulator
unchanged), and when every shift in `[-max_shift, max_shift]` is out of
bounds the function returns normally with the sentinel score: the float
`-inf` (modelled `none`) paired with shift 0. -/
theorem C5_skip_oob (sm sn : CapacitySeries) (maxShift : ℕ) (tSigma tDelta : ℤ)
    (accelM accelN : List ℚ)
    (hm : sm.acceleration = some accelM) (hn : sn.acceleration = some accelN)
    (hoob : ∀ t ∈ shiftList maxShift,
      (argmaxIdx accelM : ℤ) + t - (corrWidth tSigma tDelta : ℤ) < 0 ∨
      (argmaxIdx accelM : ℤ) + t + (corrWidth tSigma tDelta : ℤ) ≥ (accelN.length : ℤ)) :
    compute_pair_correlation sm sn maxShift tSigma tDelta = some (none, 0) := by
  unfold compute_pair_correlation
  rw [hm, hn]
  simp only [Option.some.injEq]
  exact foldl_fixed _ _ _ (fun acc t ht => corrStep_oob _ _ _ _ acc t (hoob t ht))

lemma accel_010 :
    (⟨[0, 1, 2], [0, 1, 0]⟩ : CapacitySeries).acceleration = some [-2, -2, -2] := by
  norm_num [CapacitySeries.acceleration, padEdge, diff2, diff1]

lemma argmaxIdx_neg2 : argmaxIdx [(-2 : ℚ), -2, -2] = 0 := by
  norm_num [argmaxIdx, List.enum, List.enumFrom]

lemma corrWidth_10_1 : corrWidth 10 1 = 30 := by
  norm_num [corrWidth, pyTrunc]
  rfl

/-- Claim C5, witness: a length-3 series whose acceleration is
`[-2,-2,-2]`, with `sigma=10s, delta=1s` (window half-width 30) and
`max_shift = 2`: every candidate window is out of bounds and the call
returns the sentinel `(-inf, 0)`. -/
theorem C5_witness :
    (⟨[0, 1, 2], [0, 1, 0]⟩ : CapacitySeries).acceleration = some [-2, -2, -2] ∧
    (∀ t ∈ shiftList 2,
      (argmaxIdx [(-2 : ℚ), -2, -2] : ℤ) + t - (corrWidth 10 1 : ℤ) < 0 ∨
      (argmaxIdx [(-2 : ℚ), -2, -2] : ℤ) + t + (corrWidth 10 1 : ℤ) ≥
        (([(-2 : ℚ), -2, -2] : List ℚ).length : ℤ)) ∧
    compute_pair_correlation ⟨[0, 1, 2], [0, 1, 0]⟩ ⟨[0, 1, 2], [0, 1, 0]⟩ 2 10 1 =
      some (none, 0) := by
  have hoob : ∀ t ∈ shiftList 2,
      (argmaxIdx [(-2 : ℚ), -2, -2] : ℤ) + t - (corrWidth 10 1 : ℤ) < 0 ∨
      (argmaxIdx [(-2 : ℚ), -2, -2] : ℤ) + t + (corrWidth 10 1 : ℤ) ≥
        (([(-2 : ℚ), -2, -2] : List ℚ).length : ℤ) := by
    intro t ht
    left
    rw [argmaxIdx_neg2, corrWidth_10_1]
    simp [shiftList, List.range_succ] at ht
    omega
  exact ⟨accel_010, hoob,
    C5_skip_oob _ _ 2 10 1 _ _ accel_010 accel_010 hoob⟩

lemma accel_s7 :
    (⟨[0, 2, 4, 6, 8, 10, 12], [0, 0, -1, 0, -8, -16, -24]⟩ : CapacitySeries).acceleration =
      some [-1, -1, 2, -9, 0, 0, 0] := by
  norm_num [CapacitySeries.acceleration, padEdge, diff2, diff1]

lemma argmaxIdx_s7 : argmaxIdx [(-1 : ℚ), -1, 2, -9, 0, 0, 0] = 2 := by
  norm_num [argmaxIdx, List.enum, List.enumFrom]

lemma corrWidth_1_2 : corrWidth 1 2 = 1 := by
  norm_num [corrWidth, pyTrunc]

/-- Claim C7, counterexample.  The series with capacity
`[0,0,-1,0,-8,-16,-24]` on a 2-second grid has acceleration
`[-1,-1,2,-9,0,0,0]` with its global maximum at index 2; with
`sigma=1s, delta=2s` the window half-width is 1, and with `max_shift = 2`
correlating the series with itself scores 9 at shift 2 against only 5 at
shift 0, so `best_shift = 2 ≠ 0` even though shift 0 is in bounds.  The
claim that two identical series always give `best_shift = 0` is false. -/
theorem C7_counterexample :
    compute_pair_correlation ⟨[0, 2, 4, 6, 8, 10, 12], [0, 0, -1, 0, -8, -16, -24]⟩
      ⟨[0, 2, 4, 6, 8, 10, 12], [0, 0, -1, 0, -8, -16, -24]⟩ 2 1 2 =
      some (some 9, 2) := by
  unfold compute_pair_correlation
  rw [accel_s7]
  simp only [Option.some.injEq, argmaxIdx_s7, corrWidth_1_2]
  norm_num [shiftList, List.range_succ, corrStep, pySlice]
  simp
  norm_num

/-- Claim C7, amended: `compute_pair_correlation(s, s, max_shift, sigma,
delta)` returns `best_shift = 0` when `max_shift = 0` (the only shift
tried is 0 and the initial best shift is 0).  For `max_shift ≥ 1` the
original claim is false (`C7_counterexample`). -/
theorem C7_amended (s : CapacitySeries) (tSigma tDelta : ℤ) (res : Option ℚ × ℤ)
    (h : compute_pair_correlation s s 0 tSigma tDelta = some res) : res.2 = 0 := by
  unfold compute_pair_correlation at h
  cases ha : s.acceleration with
  | none => rw [ha] at h; simp at h
  | some a =>
    rw [ha] at h
    simp only [Option.some.injEq] at h
    have hs : shiftList 0 = [0] := by simp [shiftList, List.range_succ]
    rw [hs] at h
    simp only [List.foldl_cons, List.foldl_nil] at h
    rw [← h]
    unfold corrStep
    dsimp only
    split_ifs <;> rfl

/-- Claim C7, witness: the amended theorem applied to the concrete
self-correlation with `max_shift = 0`, which evaluates to the score 5 at
shift 0. -/
theorem C7_witness :
    compute_pair_correlation ⟨[0, 2, 4, 6, 8, 10, 12], [0, 0, -1, 0, -8, -16, -24]⟩
      ⟨[0, 2, 4, 6, 8, 10, 12], [0, 0, -1, 0, -8, -16, -24]⟩ 0 1 2 =
      some (some 5, 0) ∧
    ((some (5 : ℚ), (0 : ℤ)) : Option ℚ × ℤ).2 = 0 := by
  have heval : compute_pair_correlation ⟨[0, 2, 4, 6, 8, 10, 12], [0, 0, -1, 0, -8, -16, -24]⟩
      ⟨[0, 2, 4, 6, 8, 10, 12], [0, 0, -1, 0, -8, -16, -24]⟩ 0 1 2 =
      some (some 5, 0) := by
    unfold compute_pair_correlation
    rw [accel_s7]
    simp only [Option.some.injEq, argmaxIdx_s7, corrWidth_1_2]
    norm_num [shiftList, List.range_succ, corrStep, pySlice]
    simp
    norm_num
  exact ⟨heval, C7_amended _ 1 2 _ heval⟩

lemma accel_s6 :
    (⟨[0, 2, 4, 6, 8, 10, 12, 14, 16, 18, 20, 22, 24],
      [0, 0, 100, 300, 500, 701, 904, 1112, 1322, 1533, 1744, 2055, 2466]⟩ :
        CapacitySeries).acceleration =
      some [100, 100, 100, 0, 1, 2, 5, 2, 1, 0, 100, 100, 100] := by
  norm_num [CapacitySeries.acceleration, padEdge, diff2, diff1]

lemma pct_win3 : percentileQ [(0 : ℚ), 1, 2, 5, 2, 1] 95 = 17/4 := by
  norm_num [percentileQ, sortQ, insertSorted]
  simp
  try norm_num

lemma pct_win6 :
    percentileQ [(100 : ℚ), 100, 100, 0, 1, 2, 5, 2, 1, 0, 100, 100] 95 = 100 := by
  norm_num [percentileQ, sortQ, insertSorted]
  simp
  try norm_num

set_option maxHeartbeats 2000000 in
lemma relExtrema_max_s6 :
    relExtrema (fun x y => decide (x > y))
      [(100 : ℚ), 100, 100, 0, 1, 2, 5, 2, 1, 0, 100, 100, 100] 3 = [6] := by
  norm_num [relExtrema, isRelExtr, clipIdx, List.range_succ, List.filter_cons,
    List.all_cons, Bool.and_eq_true, decide_eq_true_eq]
  try simp
  try norm_num

set_option maxHeartbeats 2000000 in
lemma relExtrema_min_s6 :
    relExtrema (fun x y => decide (x < y))
      [(100 : ℚ), 100, 100, 0, 1, 2, 5, 2, 1, 0, 100, 100, 100] 3 = [3, 9] := by
  norm_num [relExtrema, isRelExtr, clipIdx, List.range_succ, List.filter_cons,
    List.all_cons, Bool.and_eq_true, decide_eq_true_eq]
  try simp
  try norm_num

lemma peakWidth_2_3 : peakWidth 2 3 = 3 := by
  norm_num [peakWidth, pyTrunc]
  try rfl

lemma pct_min_s6 : percentileQ [(100 : ℚ), 100, 100, 0, 1, 2] 5 = 1/4 := by
  norm_num [percentileQ, sortQ, insertSorted]
  try simp
  try norm_num

lemma pct_min2_s6 : percentileQ [(5 : ℚ), 2, 1, 0, 100, 100] 5 = 1/4 := by
  norm_num [percentileQ, sortQ, insertSorted]
  try simp
  try norm_num

set_option maxHeartbeats 2000000 in
/-- Claim C6, counterexample.  For the 13-sample series on a 2-second grid
with acceleration `[100,100,100,0,1,2,5,2,1,0,100,100,100]` and
`sigma = 3s` (so `sigma/dt = 1.5`), the only maximum candidate is index 6
and the code reports the 95th percentile over the window built from
`w_code = 3*int(1.5) = 3`, namely `17/4`.  The claim's width
`w = 3*round(1.5) = 6` would give the window `[0:12]` whose 95th
percentile is `100 ≠ 17/4`, so the claim's `round` is wrong: the code
truncates. -/
theorem C6_counterexample :
    ((find_acceleration_peaks
      ⟨[0, 2, 4, 6, 8, 10, 12, 14, 16, 18, 20, 22, 24],
        [0, 0, 100, 300, 500, 701, 904, 1112, 1322, 1533, 1744, 2055, 2466]⟩ 3).map
      (fun pk => pk.maxima)) = some [(12, 17/4)] ∧
    ((⟨[0, 2, 4, 6, 8, 10, 12, 14, 16, 18, 20, 22, 24],
        [0, 0, 100, 300, 500, 701, 904, 1112, 1322, 1533, 1744, 2055, 2466]⟩ :
        CapacitySeries).acceleration).map
      (fun a => percentileQ (pySlice a 0 12) 95) = some 100 := by
  constructor
  · unfold find_acceleration_peaks
    rw [accel_s6]
    norm_num [peakWidth_2_3, relExtrema_max_s6, relExtrema_min_s6, pySlice]
    try simp
    try norm_num [pct_win3]
  · rw [accel_s6]
    norm_num [pySlice]
    try simp
    try norm_num [pct_win6]

/-- Claim C6, amended: for every series and sigma for which
`find_acceleration_peaks` succeeds, every reported maximum (resp. minimum)
candidate keeps its own timestamp and reports the 95th (resp. 5th)
percentile of acceleration over the window
`[max(0, i-w), min(n, i+w))`, where the point-width is
`w = 3 * int(sigma / dt)` — truncating division of the first time
interval, not `round` as the claim stated. -/
theorem C6_amended (s : CapacitySeries) (sigma t0 t1 : ℤ) (rest : List ℤ)
    (accel : List ℚ)
    (hts : s.time = t0 :: t1 :: rest) (ha : s.acceleration = some accel)
    (hw : 1 ≤ peakWidth (t1 - t0) sigma) :
    find_acceleration_peaks s sigma = some
      ⟨(relExtrema (fun x y => decide (x < y)) accel (peakWidth (t1 - t0) sigma)).map
          (fun n => (s.time.getD n 0,
            percentileQ (pySlice accel (n - peakWidth (t1 - t0) sigma)
              (min accel.length (n + peakWidth (t1 - t0) sigma))) 5)),
        (relExtrema (fun x y => decide (x > y)) accel (peakWidth (t1 - t0) sigma)).map
          (fun n => (s.time.getD n 0,
            percentileQ (pySlice accel (n - peakWidth (t1 - t0) sigma)
              (min accel.length (n + peakWidth (t1 - t0) sigma))) 95))⟩ := by
  unfold find_acceleration_peaks
  rw [ha, hts]
  simp [Nat.not_lt.mpr hw]

set_option maxHeartbeats 1000000 in
/-- Claim C6, witness: the amended theorem applied to the concrete
13-sample series with `sigma = 3`; the hypotheses are discharged by
evaluation. -/
theorem C6_witness :
    (⟨[0, 2, 4, 6, 8, 10, 12, 14, 16, 18, 20, 22, 24],
      [0, 0, 100, 300, 500, 701, 904, 1112, 1322, 1533, 1744, 2055, 2466]⟩ :
        CapacitySeries).time = 0 :: 2 :: [4, 6, 8, 10, 12, 14, 16, 18, 20, 22, 24] ∧
    (⟨[0, 2, 4, 6, 8, 10, 12, 14, 16, 18, 20, 22, 24],
      [0, 0, 100, 300, 500, 701, 904, 1112, 1322, 1533, 1744, 2055, 2466]⟩ :
        CapacitySeries).acceleration =
      some [100, 100, 100, 0, 1, 2, 5, 2, 1, 0, 100, 100, 100] ∧
    1 ≤ peakWidth (2 - 0) 3 ∧
    find_acceleration_peaks
      ⟨[0, 2, 4, 6, 8, 10, 12, 14, 16, 18, 20, 22, 24],
        [0, 0, 100, 300, 500, 701, 904, 1112, 1322, 1533, 1744, 2055, 2466]⟩ 3 = some
      ⟨(relExtrema (fun x y => decide (x < y))
          [(100 : ℚ), 100, 100, 0, 1, 2, 5, 2, 1, 0, 100, 100, 100]
          (peakWidth (2 - 0) 3)).map
          (fun n => ((⟨[0, 2, 4, 6, 8, 10, 12, 14, 16, 18, 20, 22, 24],
              [0, 0, 100, 300, 500, 701, 904, 1112, 1322, 1533, 1744, 2055, 2466]⟩ :
                CapacitySeries).time.getD n 0,
            percentileQ (pySlice [(100 : ℚ), 100, 100, 0, 1, 2, 5, 2, 1, 0, 100, 100, 100]
              (n - peakWidth (2 - 0) 3)
              (min ([(100 : ℚ), 100, 100, 0, 1, 2, 5, 2, 1, 0, 100, 100, 100].length)
                (n + peakWidth (2 - 0) 3))) 5)),
        (relExtrema (fun x y => decide (x > y))
          [(100 : ℚ), 100, 100, 0, 1, 2, 5, 2, 1, 0, 100, 100, 100]
          (peakWidth (2 - 0) 3)).map
          (fun n => ((⟨[0, 2, 4, 6, 8, 10, 12, 14, 16, 18, 20, 22, 24],
              [0, 0, 100, 300, 500, 701, 904, 1112, 1322, 1533, 1744, 2055, 2466]⟩ :
                CapacitySeries).time.getD n 0,
            percentileQ (pySlice [(100 : ℚ), 100, 100, 0, 1, 2, 5, 2, 1, 0, 100, 100, 100]
              (n - peakWidth (2 - 0) 3)
              (min ([(100 : ℚ), 100, 100, 0, 1, 2, 5, 2, 1, 0, 100, 100, 100].length)
                (n + peakWidth (2 - 0) 3))) 95))⟩ :=
  ⟨rfl, accel_s6, by rw [show (2:ℤ) - 0 = 2 by norm_num, peakWidth_2_3]; norm_num,
   C6_amended _ 3 0 2 _ _ rfl accel_s6
     (by rw [show (2:ℤ) - 0 = 2 by norm_num, peakWidth_2_3]; norm_num)⟩

lemma normSqQ_cons (x : ℚ) (xs : List ℚ) :
    normSqQ (x :: xs) = x * x + normSqQ xs := by
  simp [normSqQ, dotQ]

lemma normSqQ_nonneg (l : List ℚ) : 0 ≤ normSqQ l := by
  induction l with
  | nil => simp [normSqQ, dotQ]
  | cons x xs ih =>
    rw [normSqQ_cons]
    nlinarith [mul_self_nonneg x]

/-- Claim C8, counterexample.  A constant series (capacity `[5,5,5]`) has
acceleration `[0,0,0]`, so `compute_cosine_similarity(a, a) = 0/(0 + 1e-9)
= 0`, which is not within `1e-6` of 1.  The universal claim fails for any
series with tiny acceleration norm. -/
theorem C8_counterexample :
    compute_cosine_similarity ⟨[0, 1, 2], [5, 5, 5]⟩ ⟨[0, 1, 2], [5, 5, 5]⟩ =
      some 0 ∧ ¬(|(0 : ℝ) - 1| ≤ 1e-6) := by
  constructor
  · have ha : (⟨[0, 1, 2], [5, 5, 5]⟩ : CapacitySeries).acceleration = some [0, 0, 0] := by
      norm_num [CapacitySeries.acceleration, padEdge, diff2, diff1]
    unfold compute_cosine_similarity
    rw [ha]
    norm_num [dotQ, normSqQ]
  · norm_num

/-- Claim C8, amended: for every series whose acceleration has squared
euclidean norm at least `1/1000`, the raw self cosine similarity
`compute_cosine_similarity(a, a)` is within `1e-6` of 1 (with the code's
`+1e-9` denominator regularisation, `sim = q/(q + 1e-9)` for
`q = ‖accel‖²`, and `1 - sim = 1e-9/(q + 1e-9) ≤ 1e-6` once
`q ≥ 1e-3`). -/
theorem C8_amended (s : CapacitySeries) (accel : List ℚ)
    (ha : s.acceleration = some accel) (hn : (1 : ℚ)/1000 ≤ normSqQ accel) :
    ∃ x : ℝ, compute_cosine_similarity s s = some x ∧ |x - 1| ≤ 1e-6 := by
  have key : compute_cosine_similarity s s =
      some ((normSqQ accel : ℝ) / ((normSqQ accel : ℝ) + 1e-9)) := by
    unfold compute_cosine_similarity
    rw [ha]
    simp only [min_self, List.take_length]
    rw [Real.mul_self_sqrt (by exact_mod_cast normSqQ_nonneg accel)]
    rfl
  refine ⟨_, key, ?_⟩
  set q : ℝ := (normSqQ accel : ℝ) with hq
  have hq3 : (1 : ℝ)/1000 ≤ q := by
    rw [hq]
    have := (Rat.cast_le (K := ℝ)).mpr hn
    push_cast at this
    linarith
  have hpos : (0 : ℝ) < q + 1e-9 := by norm_num; linarith
  have hle1 : q / (q + 1e-9) ≤ 1 := by
    rw [div_le_one hpos]
    norm_num
  have hge : (1 : ℝ) - 1e-6 ≤ q / (q + 1e-9) := by
    rw [le_div_iff₀ hpos]
    nlinarith
  rw [abs_le]
  constructor <;> [linarith; linarith]

lemma accel_bump :
    (⟨[0, 1, 2, 3, 4], [0, 0, 1, 0, 0]⟩ : CapacitySeries).acceleration =
      some [1, 1, -2, 1, 1] := by
  norm_num [CapacitySeries.acceleration, padEdge, diff2, diff1]

/-- Claim C8, witness: the amended theorem applied to the series with
capacity `[0,0,1,0,0]`, whose acceleration `[1,1,-2,1,1]` has squared norm
8. -/
theorem C8_witness :
    (⟨[0, 1, 2, 3, 4], [0, 0, 1, 0, 0]⟩ : CapacitySeries).acceleration =
      some [1, 1, -2, 1, 1] ∧
    (1 : ℚ)/1000 ≤ normSqQ [1, 1, -2, 1, 1] ∧
    (∃ x : ℝ, compute_cosine_similarity ⟨[0, 1, 2, 3, 4], [0, 0, 1, 0, 0]⟩
      ⟨[0, 1, 2, 3, 4], [0, 0, 1, 0, 0]⟩ = some x ∧ |x - 1| ≤ 1e-6) :=
  ⟨accel_bump, by norm_num [normSqQ, dotQ],
   C8_amended ⟨[0, 1, 2, 3, 4], [0, 0, 1, 0, 0]⟩ [1, 1, -2, 1, 1] accel_bump
     (by norm_num [normSqQ, dotQ])⟩

lemma dotQ_comm (a b : List ℚ) : dotQ a b = dotQ b a := by
  unfold dotQ
  rw [List.zipWith_comm_of_comm]
  exact mul_comm

/-- Claim C10: `compute_cosine_similarity` is symmetric in its arguments:
both accelerations are truncated to the common shorter length (min is
commutative), the dot product is commutative, and the two norms enter the
denominator as a product.  Undefined cases (an acceleration that raises)
are symmetric as well. -/
theorem C10_symmetric (a b : CapacitySeries) :
    compute_cosine_similarity a b = compute_cosine_similarity b a := by
  unfold compute_cosine_similarity
  cases ha : a.acceleration with
  | none => cases hb : b.acceleration <;> rfl
  | some x =>
    cases hb : b.acceleration with
    | none => rfl
    | some y =>
      dsimp only
      rw [min_comm y.length x.length]
      rw [dotQ_comm (List.take (min x.length y.length) y)
        (List.take (min x.length y.length) x)]
      ring_nf

/-- Claim C9, counterexample.  Target capacity `[2e9, 2e9]` with donor
`[0,0]` and `coeff = 0`: the midpoint is 1 and the predicted value at
index 1 is `clip(2e9, -1e9, 1e9) = 1e9`, not the last pre-midpoint value
`2e9` that the claim promises exactly; the claim also fails when the donor
is shorter than the target (IndexError) or the target has fewer than 2
samples. -/
theorem C9_counterexample :
    ((predict_capacity_series ⟨[0, 1], [0, 0]⟩
        ⟨[0, 1], [2000000000, 2000000000]⟩ 0).map (fun p => p.capacity)) =
      some [2000000000, 1000000000] := by
  unfold predict_capacity_series
  norm_num [predictStep, pyGet, clipQ, List.range_succ]
  try simp
  try norm_num

lemma pyGet_pos (l : List ℚ) (t : ℤ) (h0 : 0 ≤ t) (hlt : t < (l.length : ℤ)) :
    pyGet l t = some (l.getD t.toNat 0) := by
  simp only [pyGet, if_neg (not_lt.mpr h0)]
  rw [dif_pos ⟨h0, hlt⟩]
  congr 1
  rw [List.getD_eq_getElem _ _ (by omega)]
  simp

lemma clipQ_id (v : ℚ) (hv : |v| ≤ 10^9) : clipQ v (-(10^9)) (10^9) = v := by
  rw [abs_le] at hv
  simp only [clipQ]
  rw [if_neg (by linarith), if_neg (by linarith)]

lemma predictStep_fill (mcap pre : List ℚ) (v : ℚ) (n : ℕ)
    (hv : clipQ v (-(10^9)) (10^9) = v)
    (hm : (pre.length : ℤ) + 1 < (mcap.length : ℤ)) :
    predictStep mcap 0 (some (pre ++ v :: List.replicate (n + 1) 0))
      ((pre.length : ℤ)) = some ((pre ++ [v]) ++ v :: List.replicate n 0) := by
  unfold predictStep
  show (match pyGet mcap ((pre.length : ℤ) + 1), pyGet mcap ((pre.length : ℤ)),
      pyGet (pre ++ v :: List.replicate (n + 1) 0) ((pre.length : ℤ)) with
    | some m1, some m0, some pt =>
      some ((pre ++ v :: List.replicate (n + 1) 0).set
        (((pre.length : ℤ)) + 1).toNat
        (clipQ (pt + 2 * (m1 - m0) * (0 : ℚ)^2) (-(10^9)) (10^9)))
    | _, _, _ => none) = _
  rw [pyGet_pos mcap _ (by omega) (by omega)]
  rw [pyGet_pos mcap _ (by omega) (by omega)]
  rw [pyGet_pos _ _ (by omega) (by simp; omega)]
  have hget : (pre ++ v :: List.replicate (n + 1) 0).getD
      ((pre.length : ℤ)).toNat 0 = v := by
    rw [Int.toNat_natCast, List.getD_append_right _ _ _ _ (le_refl _)]
    simp
  rw [hget]
  dsimp only
  rw [show ∀ m1 m0 : ℚ, v + 2 * (m1 - m0) * (0 : ℚ)^2 = v from fun m1 m0 => by ring]
  rw [hv]
  congr 1
  have hidx : (((pre.length : ℤ)) + 1).toNat = pre.length + 1 := by omega
  rw [hidx, List.set_append_right _ _ (by omega)]
  have h1 : pre.length + 1 - pre.length = 1 := by omega
  rw [h1]
  simp [List.replicate_succ]

lemma predict_loop (mcap pre : List ℚ) (v : ℚ) (j : ℕ)
    (hv : clipQ v (-(10^9)) (10^9) = v)
    (hm : (pre.length : ℤ) + j < (mcap.length : ℤ)) :
    (((List.range j).map (fun (i : ℕ) => (pre.length : ℤ) + (i : ℤ))).foldl
      (predictStep mcap 0) (some (pre ++ v :: List.replicate j 0))) =
      some (pre ++ v :: List.replicate j v) := by
  induction j generalizing pre with
  | zero => simp
  | succ n ih =>
    rw [List.range_succ_eq_map]
    simp only [List.map_cons, List.map_map, List.foldl_cons, Nat.cast_zero, add_zero]
    rw [predictStep_fill mcap pre v n hv (by omega)]
    have hfun : ((fun (i : ℕ) => (pre.length : ℤ) + (i : ℤ)) ∘ Nat.succ) =
        (fun (i : ℕ) => (((pre ++ [v]).length : ℕ) : ℤ) + (i : ℤ)) := by
      funext i
      simp [List.length_append, Function.comp]
      omega
    rw [hfun]
    have := ih (pre ++ [v]) (by simp; omega)
    simp only [List.append_assoc, List.cons_append, List.nil_append] at this ⊢
    rw [this]
    simp [List.replicate_succ]

lemma clipQ_zero : clipQ 0 (-1) 1 = 0 := by
  norm_num [clipQ]

/-- Claim C9, amended: for every donor at least as long as the target,
every target with at least 2 samples whose value at index
`midpoint - 1` has absolute value at most `1e9`, `predict(donor, target,
0)` succeeds and its capacity equals the target's first `midpoint` values
followed by the value at index `midpoint - 1` repeated to the end — the
derivative contribution `2*dc*0²` is zero at every step, so the tail is
exactly the last pre-midpoint value. -/
theorem C9_amended (sm sn : CapacitySeries)
    (h2 : 2 ≤ sn.capacity.length)
    (hd : sn.capacity.length ≤ sm.capacity.length)
    (hv : |sn.capacity.getD (sn.capacity.length / 2 - 1) 0| ≤ 10^9) :
    predict_capacity_series sm sn 0 = some
      ⟨sn.time, sn.capacity.take (sn.capacity.length / 2) ++
        List.replicate (sn.capacity.length - sn.capacity.length / 2)
          (sn.capacity.getD (sn.capacity.length / 2 - 1) 0)⟩ := by
  unfold predict_capacity_series
  dsimp only
  rw [clipQ_zero]
  have hmid1 : 1 ≤ sn.capacity.length / 2 := by omega
  have hmidn : sn.capacity.length / 2 < sn.capacity.length := by omega
  have htake : sn.capacity.take (sn.capacity.length / 2) =
      sn.capacity.take (sn.capacity.length / 2 - 1) ++
        [sn.capacity.getD (sn.capacity.length / 2 - 1) 0] := by
    conv_lhs => rw [show sn.capacity.length / 2 = (sn.capacity.length / 2 - 1) + 1 by omega]
    rw [← List.take_concat_get' sn.capacity _ (by omega)]
    congr 2
    exact (List.getD_eq_getElem _ _ (by omega)).symm
  have hprelen : (sn.capacity.take (sn.capacity.length / 2 - 1)).length =
      sn.capacity.length / 2 - 1 := by
    rw [List.length_take]
    omega
  have hts : (List.range (sn.capacity.length - sn.capacity.length / 2)).map
        (fun (i : ℕ) => ((sn.capacity.length / 2 : ℕ) : ℤ) - 1 + (i : ℤ)) =
      (List.range (sn.capacity.length - sn.capacity.length / 2)).map
        (fun (i : ℕ) =>
          (((sn.capacity.take (sn.capacity.length / 2 - 1)).length : ℕ) : ℤ) + (i : ℤ)) := by
    have hf : (fun (i : ℕ) => ((sn.capacity.length / 2 : ℕ) : ℤ) - 1 + (i : ℤ)) =
        (fun (i : ℕ) =>
          (((sn.capacity.take (sn.capacity.length / 2 - 1)).length : ℕ) : ℤ) + (i : ℤ)) := by
      funext i
      rw [hprelen]
      omega
    rw [hf]
  rw [htake, hts]
  have hcapZ : (sn.capacity.take (sn.capacity.length / 2 - 1) ++
        [sn.capacity.getD (sn.capacity.length / 2 - 1) 0]) ++
        List.replicate (sn.capacity.length - sn.capacity.length / 2) 0 =
      sn.capacity.take (sn.capacity.length / 2 - 1) ++
        sn.capacity.getD (sn.capacity.length / 2 - 1) 0 ::
          List.replicate (sn.capacity.length - sn.capacity.length / 2) 0 := by
    simp
  rw [hcapZ]
  rw [predict_loop sm.capacity _ _ _ (clipQ_id _ hv) (by rw [hprelen]; omega)]
  simp

/-- Claim C9, witness: the amended theorem applied to donor capacity
`[0,0,0,0]` and target capacity `[1,2,3,4]`, yielding `[1,2,2,2]`. -/
theorem C9_witness :
    2 ≤ (⟨[0, 1, 2, 3], [1, 2, 3, 4]⟩ : CapacitySeries).capacity.length ∧
    (⟨[0, 1, 2, 3], [1, 2, 3, 4]⟩ : CapacitySeries).capacity.length ≤
      (⟨[0, 1, 2, 3], [0, 0, 0, 0]⟩ : CapacitySeries).capacity.length ∧
    |(⟨[0, 1, 2, 3], [1, 2, 3, 4]⟩ : CapacitySeries).capacity.getD
      ((⟨[0, 1, 2, 3], [1, 2, 3, 4]⟩ : CapacitySeries).capacity.length / 2 - 1) 0| ≤ 10^9 ∧
    predict_capacity_series ⟨[0, 1, 2, 3], [0, 0, 0, 0]⟩ ⟨[0, 1, 2, 3], [1, 2, 3, 4]⟩ 0 =
      some ⟨[0, 1, 2, 3],
        ([1, 2, 3, 4] : List ℚ).take (([1, 2, 3, 4] : List ℚ).length / 2) ++
          List.replicate (([1, 2, 3, 4] : List ℚ).length - ([1, 2, 3, 4] : List ℚ).length / 2)
            (([1, 2, 3, 4] : List ℚ).getD (([1, 2, 3, 4] : List ℚ).length / 2 - 1) 0)⟩ :=
  ⟨by norm_num, by norm_num, by norm_num,
   C9_amended ⟨[0, 1, 2, 3], [0, 0, 0, 0]⟩ ⟨[0, 1, 2, 3], [1, 2, 3, 4]⟩
     (by norm_num) (by norm_num) (by norm_num)⟩
